import Mathlib

set_option maxHeartbeats 1000000
set_option maxRecDepth 8000

namespace DJSpec

/-! Shallow embedding of the two-deck DJ audio engine of src/app/audio/engine.py
and of the 3-band EQ isolator of src/app/audio/filters.py.  Finite python
floats are modelled as rationals in the engine section; the transcendental
parts of the code (cosine crossfade weights, decibel to linear conversion,
filter coefficient design) are modelled over the reals in later sections. -/

/-- Python int() applied to a float: truncation toward zero (the ceiling of a
negative value, written through the floor of its negation). -/
def pyInt (q : ℚ) : ℤ := if q < 0 then -⌊-q⌋ else ⌊q⌋

/-- numpy clip of x to the bounds lo and hi, computed as min(max(x, lo), hi).
When lo exceeds hi the upper bound wins, exactly as in numpy. -/
def npClip (x lo hi : ℤ) : ℤ := min (max x lo) hi

/-- Resolution of one python slice bound against a sequence of length n
(step 1 slices): negative bounds count from the end and are clamped at 0,
nonnegative bounds are clamped at n. -/
def sliceBound (n : ℕ) (i : ℤ) : ℕ :=
  if i < 0 then (max (i + n) 0).toNat else (min i (n : ℤ)).toNat

/-- rows[start:stop] with python slice semantics (step 1). -/
def pySlice {α : Type} (rows : List α) (start stop : ℤ) : List α :=
  let lo := sliceBound rows.length start
  let hi := sliceBound rows.length stop
  (rows.drop lo).take (hi - lo)

/-- A silent stereo block of n frames, as np.zeros((n, 2)). -/
def zerosBlock (n : ℕ) : List (ℚ × ℚ) := List.replicate n ((0 : ℚ), (0 : ℚ))

/-- Control-surface state of the per-deck EQIsolator (sample rate, crossover
cutoffs, band gains in dB).  The four filter chains owned by the isolator are
modelled in the filters section below; no engine-level claim observes their
numeric output, so at engine level the rebuild performed by set_sample_rate is
represented by its effect on the sample-rate field. -/
structure EqCtl where
  sr : ℤ
  low_cut : ℚ
  high_cut : ℚ
  low_gain_db : ℚ
  mid_gain_db : ℚ
  high_gain_db : ℚ
deriving DecidableEq

/-- DeckState from engine.py: optional loaded stereo buffer, frame count,
fractional playhead in frames, playback rate, playing flag, EQ control state
and the hot-cue dictionary (association list keyed by cue index). -/
structure Deck where
  buffer : Option (List (ℚ × ℚ))
  frames : ℤ
  playhead : ℚ
  rate : ℚ
  playing : Bool
  eq : EqCtl
  hotcues : List (ℤ × ℤ)
deriving DecidableEq

/-- A numpy array argument to load_pcm: its shape vector plus its row data.
The rows field carries the sample data of two-channel arrays; validation
failures are expressed through the shape vector alone. -/
structure NDArray where
  shape : List ℕ
  rows : List (ℚ × ℚ)
deriving DecidableEq

/-- The two deck identifiers accepted by the engine. -/
inductive DeckId where
  | A
  | B
deriving DecidableEq

/-- MixerState plus both decks and the output stream flag: the AudioEngine
object.  streamActive models whether the sounddevice output stream exists and
is running. -/
structure Engine where
  sr : ℤ
  deckA : Deck
  deckB : Deck
  crossfader : ℚ
  chanA : ℚ
  chanB : ℚ
  streamActive : Bool
deriving DecidableEq

/-- EQIsolator(sr=48000) default control state: crossovers 250 and 2500 Hz,
all gains 0 dB. -/
def eqCtlInit : EqCtl := ⟨48000, 250, 2500, 0, 0, 0⟩

/-- DeckState() as constructed by the engine: no buffer, playhead 0, rate 1,
paused, fresh EQ isolator, empty hot-cue table. -/
def deckInit : Deck := ⟨none, 0, 0, 1, false, eqCtlInit, []⟩

/-- AudioEngine(sr): two fresh decks, crossfader at 0.5, both channel gains 1,
no stream yet. -/
def mkEngine (sr : ℤ) : Engine := ⟨sr, deckInit, deckInit, 1/2, 1, 1, false⟩

/-- AudioEngine() at the default operating rate SR = 48000. -/
def engineInit : Engine := mkEngine 48000

/-- str.upper() on the (ascii) deck identifiers, written as a plain map over
the characters of the string. -/
def pyUpper (s : String) : String := ⟨s.data.map Char.toUpper⟩

/-- AudioEngine._deck: uppercase the identifier and compare against A and B;
anything else is an invalid-argument error (modelled as none). -/
def resolveDeck (s : String) : Option DeckId :=
  if pyUpper s = "A" then some DeckId.A
  else if pyUpper s = "B" then some DeckId.B
  else none

def Engine.deckOf (e : Engine) : DeckId → Deck
  | DeckId.A => e.deckA
  | DeckId.B => e.deckB

def Engine.withDeck (e : Engine) : DeckId → Deck → Engine
  | DeckId.A, d => { e with deckA := d }
  | DeckId.B, d => { e with deckB := d }

/-- Error message used by the invalid-deck branch of _deck. -/
def deckErr : String := "deck must be A or B"

/-- AudioEngine.load_pcm: reject a source sample rate different from the
engine rate, then reject any array that is not two-dimensional with second
dimension 2; otherwise replace the buffer of the resolved deck, set its frame
count from the shape, reset playhead to 0, stop playback, reset the rate to 1,
clear the hot cues and re-synchronize the EQ isolator to the engine sample
rate.  Raising is modelled as (some message, unchanged engine). -/
def load_pcm (e : Engine) (deck : String) (pcm : NDArray) (sr : ℤ) :
    Option String × Engine :=
  if sr ≠ e.sr then (some "sample rate mismatch", e)
  else if pcm.shape.length ≠ 2 ∨ pcm.shape.getD 1 0 ≠ 2 then
    (some "PCM must be shape N by 2", e)
  else
    match resolveDeck deck with
    | none => (some deckErr, e)
    | some dk =>
      let d := e.deckOf dk
      (none, e.withDeck dk
        { d with
          buffer := some pcm.rows
          frames := (pcm.shape.getD 0 0 : ℤ)
          playhead := 0
          playing := false
          rate := 1
          hotcues := []
          eq := { d.eq with sr := e.sr } })

/-- AudioEngine._ensure_stream: make sure the output stream exists and runs. -/
def ensure_stream (e : Engine) : Engine := { e with streamActive := true }

/-- AudioEngine.play: set the playing flag of the resolved deck and ensure the
stream is active. -/
def play (e : Engine) (deck : String) : Option String × Engine :=
  match resolveDeck deck with
  | none => (some deckErr, e)
  | some dk =>
    (none, ensure_stream (e.withDeck dk { e.deckOf dk with playing := true }))

/-- AudioEngine.pause: clear the playing flag of the resolved deck. -/
def pause (e : Engine) (deck : String) : Option String × Engine :=
  match resolveDeck deck with
  | none => (some deckErr, e)
  | some dk => (none, e.withDeck dk { e.deckOf dk with playing := false })

/-- AudioEngine.toggle_play: negate the playing flag and ensure the stream. -/
def toggle_play (e : Engine) (deck : String) : Option String × Engine :=
  match resolveDeck deck with
  | none => (some deckErr, e)
  | some dk =>
    (none,
      ensure_stream (e.withDeck dk { e.deckOf dk with playing := !(e.deckOf dk).playing }))

/-- AudioEngine.seek_frames: no-op when no buffer is loaded, otherwise clamp
the requested frame index with np.clip(i, 0, frames - 1) and store it as the
new (float) playhead. -/
def seek_frames (e : Engine) (deck : String) (i : ℤ) : Option String × Engine :=
  match resolveDeck deck with
  | none => (some deckErr, e)
  | some dk =>
    let d := e.deckOf dk
    match d.buffer with
    | none => (none, e)
    | some _ =>
      (none, e.withDeck dk { d with playhead := ((npClip i 0 (d.frames - 1) : ℤ) : ℚ) })

/-- AudioEngine.set_rate: store an arbitrary (finite) float rate, unchecked. -/
def set_rate (e : Engine) (deck : String) (r : ℚ) : Option String × Engine :=
  match resolveDeck deck with
  | none => (some deckErr, e)
  | some dk => (none, e.withDeck dk { e.deckOf dk with rate := r })

/-- AudioEngine.get_position: int(playhead) of the resolved deck. -/
def get_position (e : Engine) (deck : String) : Except String ℤ :=
  match resolveDeck deck with
  | none => Except.error deckErr
  | some dk => Except.ok (pyInt (e.deckOf dk).playhead)

/-- AudioEngine.get_duration: int(frames) of the resolved deck. -/
def get_duration (e : Engine) (deck : String) : Except String ℤ :=
  match resolveDeck deck with
  | none => Except.error deckErr
  | some dk => Except.ok (e.deckOf dk).frames

/-- Python dict assignment hotcues[idx] = v on the association-list model:
replace the value when the key is present, otherwise append the binding. -/
def insertCue (l : List (ℤ × ℤ)) (i v : ℤ) : List (ℤ × ℤ) :=
  if l.any (fun c => c.1 == i) then
    l.map (fun c => if c.1 == i then (i, v) else c)
  else l ++ [(i, v)]

/-- Python dict lookup hotcues.get(idx) on the association-list model. -/
def lookupCue (l : List (ℤ × ℤ)) (i : ℤ) : Option ℤ :=
  (l.find? (fun c => c.1 == i)).map (fun c => c.2)

/-- AudioEngine.set_hotcue: record the current integer playhead at index i. -/
def set_hotcue (e : Engine) (deck : String) (i : ℤ) : Option String × Engine :=
  match resolveDeck deck with
  | none => (some deckErr, e)
  | some dk =>
    let d := e.deckOf dk
    (none, e.withDeck dk { d with hotcues := insertCue d.hotcues i (pyInt d.playhead) })

/-- AudioEngine.goto_hotcue: jump the playhead to the stored frame when the
index is present, silently do nothing otherwise. -/
def goto_hotcue (e : Engine) (deck : String) (i : ℤ) : Option String × Engine :=
  match resolveDeck deck with
  | none => (some deckErr, e)
  | some dk =>
    let d := e.deckOf dk
    match lookupCue d.hotcues i with
    | some f => (none, e.withDeck dk { d with playhead := (f : ℚ) })
    | none => (none, e)

/-- AudioEngine.set_eq: delegate to the deck isolator set_gains_db. -/
def set_eq (e : Engine) (deck : String) (low mid high : ℚ) : Option String × Engine :=
  match resolveDeck deck with
  | none => (some deckErr, e)
  | some dk =>
    let d := e.deckOf dk
    (none, e.withDeck dk
      { d with eq := { d.eq with low_gain_db := low, mid_gain_db := mid, high_gain_db := high } })

/-- AudioEngine.set_crossfader: clamp the position to the unit interval and
store it. -/
def set_crossfader (e : Engine) (xf : ℚ) : Engine :=
  { e with crossfader := min (max xf 0) 1 }

/-- AudioEngine.set_channel_gain: clamp the gain to the unit interval, then
compare the uppercased identifier against A and B.  There is no else branch in
the source: an unknown identifier is a silent no-op, not an error. -/
def set_channel_gain (e : Engine) (deck : String) (g : ℚ) : Option String × Engine :=
  let g2 := min (max g 0) 1
  if pyUpper deck = "A" then (none, { e with chanA := g2 })
  else if pyUpper deck = "B" then (none, { e with chanB := g2 })
  else (none, e)

/-- Lines 140 to 145 of engine.py: allocate a silent block of n frames, take
start = int(playhead) and end = min(start + n, frames), and when end exceeds
start copy buffer[start:end] into out[:(end - start)].  The numpy slice on the
right is resolved with python slice semantics; the assignment broadcasts when
the source has exactly the target length (or a single row) and raises a
ValueError otherwise, modelled as none. -/
def renderCopy (rows : List (ℚ × ℚ)) (frameCount : ℤ) (playhead : ℚ) (n : ℕ) :
    Option (List (ℚ × ℚ)) :=
  let start := pyInt playhead
  let stop := min (start + (n : ℤ)) frameCount
  if stop > start then
    let src := pySlice rows start stop
    let tgtLen := (min (stop - start) (n : ℤ)).toNat
    if src.length = tgtLen then some (src ++ zerosBlock (n - tgtLen))
    else
      match src with
      | [r] => some (List.replicate tgtLen r ++ zerosBlock (n - tgtLen))
      | _ => none
  else some (zerosBlock n)

/-- Lines 147 to 150 of engine.py: advance the playhead by n * rate; when the
advanced playhead reaches or exceeds the frame count, clamp it to frames - 1
and stop the deck. -/
def advanceDeck (d : Deck) (n : ℕ) : Deck :=
  let ph := d.playhead + (n : ℚ) * d.rate
  if ph ≥ (d.frames : ℚ) then { d with playhead := (d.frames : ℚ) - 1, playing := false }
  else { d with playhead := ph }

/-- AudioEngine._render_deck: when a buffer is loaded and the deck is playing,
copy from the buffer, advance the playhead and pass the copied block through
the deck EQ; otherwise return a silent block without touching the deck.  The
EQ application of line 152 is abstracted by the eqApply argument because no
engine-level claim observes the filtered samples; the filters section models
the isolator itself. -/
def renderDeck (eqApply : List (ℚ × ℚ) → List (ℚ × ℚ)) (d : Deck) (n : ℕ) :
    Option (List (ℚ × ℚ) × Deck) :=
  match d.buffer with
  | some rows =>
    if d.playing then
      (renderCopy rows d.frames d.playhead n).map (fun raw => (eqApply raw, advanceDeck d n))
    else some (zerosBlock n, d)
  | none => some (zerosBlock n, d)

/-- Per-deck channel gain applied to a rendered block. -/
def scaleBlock (g : ℚ) (b : List (ℚ × ℚ)) : List (ℚ × ℚ) :=
  b.map (fun p => (g * p.1, g * p.2))

/-- np.clip(x, -1.0, 1.0) on one sample. -/
def clipQ (x : ℚ) : ℚ := min (max x (-1)) 1

/-- AudioEngine._callback: render deck A, scale by chanA, render deck B, scale
by chanB, mix with the crossfade weights and hard-clip every sample.  The
weights gA and gB stand for cos and sin of crossfader times pi over two (see
mixGainA and mixGainB in the real-valued section); they enter here as
parameters so that the deck arithmetic stays rational and executable.  The
callback has no exception handler: a failure of either deck render (none)
propagates out of the whole callback. -/
def callbackStep (gA gB : ℚ) (eqA eqB : List (ℚ × ℚ) → List (ℚ × ℚ))
    (e : Engine) (n : ℕ) : Option (List (ℚ × ℚ) × Engine) :=
  match renderDeck eqA e.deckA n with
  | none => none
  | some (a0, dA) =>
    let a := scaleBlock e.chanA a0
    match renderDeck eqB e.deckB n with
    | none => none
    | some (b0, dB) =>
      let b := scaleBlock e.chanB b0
      let mix := List.zipWith (fun u v => (gA * u.1 + gB * v.1, gA * u.2 + gB * v.2)) a b
      some (mix.map (fun p => (clipQ p.1, clipQ p.2)), { e with deckA := dA, deckB := dB })

/-! Filters section: shallow embedding of src/app/audio/filters.py.  The
biquad recurrence, the Linkwitz-Riley cascades and the isolator band
combination are pure arithmetic, so they are written polymorphically over a
commutative ring and stay executable; the claims instantiate them at the
reals.  Band gains arrive as python floats that may be non-finite, modelled by
the FVal type. -/

/-- A python float as seen by _db_to_lin: a finite value, or one of the three
non-finite IEEE values. -/
inductive FVal where
  | finite (q : ℚ)
  | nan
  | inf
  | ninf
deriving DecidableEq

/-- Comparison v <= c of a python float against a finite constant: false for
nan and for positive infinity, true for negative infinity. -/
def FVal.leConst (v : FVal) (c : ℚ) : Bool :=
  match v with
  | FVal.finite q => decide (q ≤ c)
  | FVal.nan => false
  | FVal.inf => false
  | FVal.ninf => true

/-- np.isfinite on the python float model. -/
def FVal.isFinite : FVal → Bool
  | FVal.finite _ => true
  | _ => false

/-- The function _db_to_lin of filters.py: gains at or below -80 dB, and
non-finite gains, map to exactly 0.0; every other gain g maps to
10 raised to g / 20. -/
noncomputable def db_to_lin (db : FVal) : ℝ :=
  if db.leConst (-80) || !db.isFinite then 0
  else
    match db with
    | FVal.finite q => (10 : ℝ) ^ ((q : ℝ) / 20)
    | _ => 0

/-- Biquad of filters.py: the five coefficients normalized by a0, plus two
state variables per stereo channel. -/
structure Biquad (α : Type) where
  b0 : α
  b1 : α
  b2 : α
  a1 : α
  a2 : α
  z1L : α
  z2L : α
  z1R : α
  z2R : α

/-- One sample of Biquad.process: the transposed direct form II recurrence of
lines 59 to 71 of filters.py, applied to both stereo channels. -/
def biquadStep {α : Type} [CommRing α] (bq : Biquad α) (x : α × α) :
    (α × α) × Biquad α :=
  let outL := x.1 * bq.b0 + bq.z1L
  let z1L2 := x.1 * bq.b1 + bq.z2L - bq.a1 * outL
  let z2L2 := x.1 * bq.b2 - bq.a2 * outL
  let outR := x.2 * bq.b0 + bq.z1R
  let z1R2 := x.2 * bq.b1 + bq.z2R - bq.a1 * outR
  let z2R2 := x.2 * bq.b2 - bq.a2 * outR
  ((outL, outR), { bq with z1L := z1L2, z2L := z2L2, z1R := z1R2, z2R := z2R2 })

/-- Biquad.process over a whole block: fold the per-sample recurrence down the
list of frames, returning the output block and the updated filter state. -/
def biquadProcess {α : Type} [CommRing α] (bq : Biquad α) :
    List (α × α) → List (α × α) × Biquad α
  | [] => ([], bq)
  | x :: rest =>
    let s := biquadStep bq x
    let r := biquadProcess s.2 rest
    (s.1 :: r.1, r.2)

/-- LR4Lowpass and LR4Highpass of filters.py: two cascaded biquad stages of
identical design with independent states. -/
structure LR4 (α : Type) where
  s1 : Biquad α
  s2 : Biquad α

/-- LR4 process: the block passes through stage one, then stage two. -/
def lr4Process {α : Type} [CommRing α] (f : LR4 α) (xs : List (α × α)) :
    List (α × α) × LR4 α :=
  let r1 := biquadProcess f.s1 xs
  let r2 := biquadProcess f.s2 r1.1
  (r2.1, ⟨r1.2, r2.2⟩)

/-- EQIsolator of filters.py: sample rate, two crossover cutoffs, three band
gains in dB (python floats) and the four independent filter chains. -/
structure EQIsolator (α : Type) where
  sr : ℤ
  low_cut : α
  high_cut : α
  low_gain_db : FVal
  mid_gain_db : FVal
  high_gain_db : FVal
  lp_low : LR4 α
  hp_mid : LR4 α
  lp_mid : LR4 α
  hp_high : LR4 α

/-- Lines 199 to 201 of filters.py: split the input block into the three band
signals.  low is the low-pass at low_cut applied to the input; mid is the
low-pass at high_cut applied to the output of the high-pass at low_cut; high
is the high-pass at high_cut applied to the input.  Returns the three bands
together with the four updated chain states. -/
def eqBands {α : Type} [CommRing α] (eq : EQIsolator α) (x : List (α × α)) :
    (List (α × α) × List (α × α) × List (α × α)) × (LR4 α × LR4 α × LR4 α × LR4 α) :=
  let low := lr4Process eq.lp_low x
  let mid1 := lr4Process eq.hp_mid x
  let mid := lr4Process eq.lp_mid mid1.1
  let high := lr4Process eq.hp_high x
  ((low.1, mid.1, high.1), (low.2, mid1.2, mid.2, high.2))

/-- The low band signal produced inside EQIsolator.process. -/
def eqLowBand {α : Type} [CommRing α] (eq : EQIsolator α) (x : List (α × α)) :
    List (α × α) := (eqBands eq x).1.1

/-- The mid band signal produced inside EQIsolator.process. -/
def eqMidBand {α : Type} [CommRing α] (eq : EQIsolator α) (x : List (α × α)) :
    List (α × α) := (eqBands eq x).1.2.1

/-- The high band signal produced inside EQIsolator.process. -/
def eqHighBand {α : Type} [CommRing α] (eq : EQIsolator α) (x : List (α × α)) :
    List (α × α) := (eqBands eq x).1.2.2

/-- A stereo frame scaled by a band gain. -/
def scalePair {α : Type} [CommRing α] (g : α) (p : α × α) : α × α := (g * p.1, g * p.2)

/-- Samplewise sum of two stereo frames. -/
def addPair {α : Type} [CommRing α] (p q : α × α) : α × α := (p.1 + q.1, p.2 + q.2)

/-- Line 208 of filters.py, y = gl * low + gm * mid + gh * high, written as
pointwise sums of the three scaled band signals (all bands have the length of
the input block, so numpy broadcasting is plain elementwise arithmetic). -/
def eqCombine {α : Type} [CommRing α] (gl gm gh : α)
    (low mid high : List (α × α)) : List (α × α) :=
  List.zipWith addPair
    (List.zipWith addPair (low.map (scalePair gl)) (mid.map (scalePair gm)))
    (high.map (scalePair gh))

/-- EQIsolator.process: an empty block is returned unchanged; otherwise the
three band signals are combined with the linear gains obtained from the
decibel settings through dbLin (instantiated with _db_to_lin at the reals in
the claims), and the four chain states advance. -/
def eqProcess {α : Type} [CommRing α] (dbLin : FVal → α) (eq : EQIsolator α)
    (x : List (α × α)) : List (α × α) × EQIsolator α :=
  if x.isEmpty then (x, eq)
  else
    let b := eqBands eq x
    (eqCombine (dbLin eq.low_gain_db) (dbLin eq.mid_gain_db) (dbLin eq.high_gain_db)
        b.1.1 b.1.2.1 b.1.2.2,
      { eq with lp_low := b.2.1, hp_mid := b.2.2.1, lp_mid := b.2.2.2.1, hp_high := b.2.2.2.2 })

/-- The RBJ cookbook low-pass coefficient designer _rbj_lowpass with
Q = 1 over the square root of 2: numerator and denominator triples. -/
noncomputable def rbj_lowpass (fc sr : ℝ) : (ℝ × ℝ × ℝ) × (ℝ × ℝ × ℝ) :=
  let q : ℝ := 1 / Real.sqrt 2
  let w0 := 2 * Real.pi * (fc / sr)
  let cosw0 := Real.cos w0
  let sinw0 := Real.sin w0
  let alpha := sinw0 / (2 * q)
  (((1 - cosw0) * (1 / 2), 1 - cosw0, (1 - cosw0) * (1 / 2)),
    (1 + alpha, -2 * cosw0, 1 - alpha))

/-- The RBJ cookbook high-pass coefficient designer _rbj_highpass with
Q = 1 over the square root of 2. -/
noncomputable def rbj_highpass (fc sr : ℝ) : (ℝ × ℝ × ℝ) × (ℝ × ℝ × ℝ) :=
  let q : ℝ := 1 / Real.sqrt 2
  let w0 := 2 * Real.pi * (fc / sr)
  let cosw0 := Real.cos w0
  let sinw0 := Real.sin w0
  let alpha := sinw0 / (2 * q)
  (((1 + cosw0) * (1 / 2), -(1 + cosw0), (1 + cosw0) * (1 / 2)),
    (1 + alpha, -2 * cosw0, 1 - alpha))

/-- Biquad construction: normalize the six raw coefficients by a0 and zero
the state.  The designers above always yield a0 = 1 + alpha, which is the only
construction path exercised by the engine. -/
noncomputable def mkBiquad (b a : ℝ × ℝ × ℝ) : Biquad ℝ :=
  { b0 := b.1 / a.1, b1 := b.2.1 / a.1, b2 := b.2.2 / a.1
    a1 := a.2.1 / a.1, a2 := a.2.2 / a.1
    z1L := 0, z2L := 0, z1R := 0, z2R := 0 }

/-- A Linkwitz-Riley 24 dB per octave low-pass: the same RBJ biquad twice. -/
noncomputable def mkLR4Lowpass (fc sr : ℝ) : LR4 ℝ :=
  let c := rbj_lowpass fc sr
  ⟨mkBiquad c.1 c.2, mkBiquad c.1 c.2⟩

/-- A Linkwitz-Riley 24 dB per octave high-pass: the same RBJ biquad twice. -/
noncomputable def mkLR4Highpass (fc sr : ℝ) : LR4 ℝ :=
  let c := rbj_highpass fc sr
  ⟨mkBiquad c.1 c.2, mkBiquad c.1 c.2⟩

/-! Real-valued mixer section: the equal-power crossfade weights and the final
hard clip of AudioEngine._callback, lines 163 to 168 of engine.py. -/

/-- theta = crossfader * (pi / 2). -/
noncomputable def mixTheta (p : ℝ) : ℝ := p * (Real.pi / 2)

/-- gA = cos(theta): the deck A crossfade weight. -/
noncomputable def mixGainA (p : ℝ) : ℝ := Real.cos (mixTheta p)

/-- gB = sin(theta): the deck B crossfade weight. -/
noncomputable def mixGainB (p : ℝ) : ℝ := Real.sin (mixTheta p)

/-- np.clip(x, -1.0, 1.0) on one real sample. -/
noncomputable def clipR (x : ℝ) : ℝ := min (max x (-1)) 1

/-- Lines 166 and 168 of engine.py at crossfader position p: mix the two
scaled deck blocks with the equal-power weights and hard-clip every sample of
the result. -/
noncomputable def mixBlock (p : ℝ) (a b : List (ℝ × ℝ)) : List (ℝ × ℝ) :=
  List.zipWith
    (fun u v =>
      (clipR (mixGainA p * u.1 + mixGainB p * v.1),
        clipR (mixGainA p * u.2 + mixGainB p * v.2)))
    a b

/-! Operation sequences: the control API calls and render steps that claims
about state invariants quantify over. -/

/-- One callback-driven render pass over both decks (the state effect of
AudioEngine._callback): deck A renders first; if its render raises, deck B is
never reached and neither deck has advanced (the copy failure happens before
the playhead advance); if deck B raises after A succeeded, deck A keeps its
advanced state. -/
def renderOp (e : Engine) (n : ℕ) : Engine :=
  match renderDeck id e.deckA n with
  | none => e
  | some rA =>
    match renderDeck id e.deckB n with
    | none => { e with deckA := rA.2 }
    | some rB => { e with deckA := rA.2, deckB := rB.2 }

/-- The control-surface operations (plus render steps) whose sequences the
playhead invariant claim ranges over. -/
inductive Op where
  | load (deck : String) (pcm : NDArray) (sr : ℤ)
  | play (deck : String)
  | pause (deck : String)
  | toggle (deck : String)
  | seek (deck : String) (i : ℤ)
  | setRate (deck : String) (r : ℚ)
  | setHotcue (deck : String) (i : ℤ)
  | gotoHotcue (deck : String) (i : ℤ)
  | render (n : ℕ)

/-- State effect of one operation.  A python call that raises leaves the
engine unchanged, which is what the second components of the operation models
return on their error paths. -/
def applyOp (e : Engine) : Op → Engine
  | Op.load deck pcm sr => (load_pcm e deck pcm sr).2
  | Op.play deck => (play e deck).2
  | Op.pause deck => (pause e deck).2
  | Op.toggle deck => (toggle_play e deck).2
  | Op.seek deck i => (seek_frames e deck i).2
  | Op.setRate deck r => (set_rate e deck r).2
  | Op.setHotcue deck i => (set_hotcue e deck i).2
  | Op.gotoHotcue deck i => (goto_hotcue e deck i).2
  | Op.render n => renderOp e n

/-- Restriction under which the playhead invariant actually holds: every rate
handed to set_rate is nonnegative.  All other operations are unrestricted. -/
def opValidB : Op → Bool
  | Op.setRate _ r => decide (0 ≤ r)
  | _ => true

/-- The per-deck state invariant: the stored rate is nonnegative and, when a
nonempty buffer is loaded, the playhead lies between 0 and the frame count and
every stored hot cue does as well. -/
def DeckInv (d : Deck) : Prop :=
  0 ≤ d.rate ∧
    (0 < d.frames →
      0 ≤ d.playhead ∧ d.playhead ≤ (d.frames : ℚ) ∧
        ∀ c ∈ d.hotcues, 0 ≤ c.2 ∧ c.2 ≤ d.frames)

/-- The invariant on both decks of the engine. -/
def EngineInv (e : Engine) : Prop := DeckInv e.deckA ∧ DeckInv e.deckB

/-! Concrete inputs used by the closed counterexample and witness theorems. -/

/-- A well-formed two-frame stereo pcm buffer. -/
def c1Pcm : NDArray := ⟨[2, 2], [(0, 0), (0, 0)]⟩

/-- Engine reached through the public API: load two frames on deck A, store
rate -1.0 through set_rate, start playback. -/
def c1Engine : Engine :=
  (play ((set_rate ((load_pcm engineInit "A" c1Pcm 48000).2) "A" (-1)).2) "A").2

/-- The same API-reachable state, used by the invariant counterexample. -/
def c3Engine : Engine :=
  (play ((set_rate ((load_pcm engineInit "A" ⟨[2, 2], [(0, 0), (0, 0)]⟩ 48000).2) "A" (-1)).2) "A").2

/-- A valid operation sequence exercising load, play, set_rate, a render step
and a seek. -/
def c3Ops : List Op :=
  [Op.load "A" ⟨[2, 2], [(0, 0), (0, 0)]⟩ 48000, Op.play "A",
    Op.setRate "A" (1/2), Op.render 4, Op.seek "A" 1]

/-- The 100-frame buffer of the end-of-track example. -/
def c2Rows : List (ℚ × ℚ) := List.replicate 100 (0, 0)

/-- A playing deck holding the 100-frame buffer at playhead 0 and rate 1. -/
def c2Deck : Deck := ⟨some c2Rows, 100, 0, 1, true, eqCtlInit, []⟩

/-- A biquad with zero coefficients and zero state, enough to instantiate the
band-kill theorem at a concrete isolator. -/
def c5Biquad : Biquad ℝ := ⟨0, 0, 0, 0, 0, 0, 0, 0, 0⟩

/-- A zero filter chain. -/
def c5LR4 : LR4 ℝ := ⟨c5Biquad, c5Biquad⟩

/-- A concrete isolator whose low band gain is negative infinity. -/
def c5Iso : EQIsolator ℝ :=
  ⟨48000, 250, 2500, FVal.ninf, FVal.finite 0, FVal.finite 0, c5LR4, c5LR4, c5LR4, c5LR4⟩

/-- An engine whose deck A is loaded and parked at playhead 4000. -/
def c8Engine : Engine :=
  { engineInit with deckA := ⟨some [], 5000, 4000, 1, false, eqCtlInit, []⟩ }

/-! Helper lemmas. -/

theorem pyInt_of_nonneg {q : ℚ} (h : 0 ≤ q) : pyInt q = ⌊q⌋ := by
  unfold pyInt
  exact if_neg (not_lt.2 h)

theorem pyInt_intCast (n : ℤ) : pyInt (n : ℚ) = n := by
  unfold pyInt
  split
  · rw [show (-(n : ℚ)) = ((-n : ℤ) : ℚ) by push_cast; ring, Int.floor_intCast]
    ring
  · exact Int.floor_intCast n

theorem pySlice_of_bounds {α : Type} (rows : List α) {start stop : ℤ}
    (h0 : 0 ≤ start) (h1 : start ≤ (rows.length : ℤ))
    (h2 : 0 ≤ stop) (h3 : stop ≤ (rows.length : ℤ)) :
    pySlice rows start stop = (rows.drop start.toNat).take (stop.toNat - start.toNat) := by
  unfold pySlice sliceBound
  rw [if_neg (not_lt.2 h0), if_neg (not_lt.2 h2)]
  have ha : (min start (rows.length : ℤ)).toNat = start.toNat := by omega
  have hb : (min stop (rows.length : ℤ)).toNat = stop.toNat := by omega
  rw [ha, hb]

theorem deckOf_withDeck_same (e : Engine) (dk : DeckId) (d : Deck) :
    (e.withDeck dk d).deckOf dk = d := by
  cases dk <;> rfl

theorem exists_of_mem_zipWith {A B C : Type} {f : A → B → C} {c : C} :
    ∀ {l1 : List A} {l2 : List B}, c ∈ List.zipWith f l1 l2 → ∃ u v, c = f u v := by
  intro l1
  induction l1 with
  | nil => intro l2 h; simp at h
  | cons a t ih =>
    intro l2 h
    cases l2 with
    | nil => simp at h
    | cons b t2 =>
      rw [List.zipWith_cons_cons, List.mem_cons] at h
      rcases h with h | h
      · exact ⟨a, b, h⟩
      · exact ih h

theorem find_map_replace (l : List (ℤ × ℤ)) (i v : ℤ)
    (h : l.any (fun c => c.1 == i) = true) :
    (l.map (fun c => if c.1 == i then (i, v) else c)).find? (fun c => c.1 == i) = some (i, v) := by
  induction l with
  | nil => exact absurd h (by simp)
  | cons hd tl ih =>
    rw [List.map_cons]
    by_cases hh : (hd.1 == i) = true
    · rw [if_pos hh]
      exact List.find?_cons_of_pos _ (by simp)
    · rw [if_neg hh]
      have hstep : List.find? (fun c => c.1 == i)
          (hd :: (tl.map fun c => if c.1 == i then (i, v) else c)) =
          List.find? (fun c => c.1 == i) (tl.map fun c => if c.1 == i then (i, v) else c) :=
        List.find?_cons_of_neg _ hh
      rw [hstep]
      cases hcb : (hd.1 == i) with
      | true => exact absurd hcb hh
      | false =>
        rw [List.any_cons, hcb, Bool.false_or] at h
        exact ih h

theorem find_append_new (l : List (ℤ × ℤ)) (i v : ℤ)
    (h : l.any (fun c => c.1 == i) = false) :
    (l ++ [(i, v)]).find? (fun c => c.1 == i) = some (i, v) := by
  induction l with
  | nil => exact List.find?_cons_of_pos _ (by simp)
  | cons hd tl ih =>
    rw [List.any_cons, Bool.or_eq_false_iff] at h
    have hstep : List.find? (fun c => c.1 == i) (hd :: (tl ++ [(i, v)])) =
        List.find? (fun c => c.1 == i) (tl ++ [(i, v)]) :=
      List.find?_cons_of_neg _ (by simp [h.1])
    rw [List.cons_append, hstep]
    exact ih h.2

theorem lookupCue_insertCue (l : List (ℤ × ℤ)) (i v : ℤ) :
    lookupCue (insertCue l i v) i = some v := by
  unfold insertCue
  by_cases hany : (l.any fun c => c.1 == i) = true
  · rw [if_pos hany]
    unfold lookupCue
    rw [find_map_replace l i v hany]
    rfl
  · rw [if_neg hany]
    unfold lookupCue
    have h2 : (l.any fun c => c.1 == i) = false := by
      revert hany
      cases l.any fun c => c.1 == i
      · intro _; rfl
      · intro hx; exact absurd rfl hx
    rw [find_append_new l i v h2]
    rfl

theorem lookupCue_mem {l : List (ℤ × ℤ)} {i f : ℤ} (h : lookupCue l i = some f) :
    ∃ c ∈ l, c.2 = f := by
  unfold lookupCue at h
  rcases Option.map_eq_some'.1 h with ⟨c, hc, hcf⟩
  exact ⟨c, List.mem_of_find?_eq_some hc, hcf⟩

theorem mem_insertCue (Q : ℤ → Prop) {l : List (ℤ × ℤ)} {i v : ℤ}
    (hl : ∀ c ∈ l, Q c.2) (hv : Q v) : ∀ c ∈ insertCue l i v, Q c.2 := by
  unfold insertCue
  split
  · intro c hc
    rcases List.mem_map.1 hc with ⟨c2, hc2, rfl⟩
    by_cases hh : (c2.1 == i) = true
    · rw [if_pos hh]
      exact hv
    · rw [if_neg hh]
      exact hl c2 hc2
  · intro c hc
    rcases List.mem_append.1 hc with hc | hc
    · exact hl c hc
    · rw [List.mem_singleton] at hc
      subst hc
      exact hv

theorem map_scalePair_zero {α : Type} [CommRing α] (l : List (α × α)) :
    l.map (scalePair (0 : α)) = List.replicate l.length ((0 : α), (0 : α)) := by
  induction l with
  | nil => rfl
  | cons h t ih => simp [scalePair, ih, List.replicate_succ]

theorem db_to_lin_kill (v : FVal) (h : v.leConst (-80) = true ∨ v.isFinite = false) :
    db_to_lin v = 0 := by
  rcases h with h | h <;> simp [db_to_lin, h]

/-! Preservation of the playhead invariant. -/

theorem floor_bounds {q : ℚ} {F : ℤ} (h0 : 0 ≤ q) (hub : q ≤ (F : ℚ)) :
    0 ≤ pyInt q ∧ pyInt q ≤ F := by
  rw [pyInt_of_nonneg h0]
  constructor
  · exact Int.le_floor.2 (by exact_mod_cast h0)
  · have := Int.floor_le_floor hub
    rwa [Int.floor_intCast] at this

theorem deckInv_advance (n : ℕ) {d : Deck} (h : DeckInv d) : DeckInv (advanceDeck d n) := by
  unfold advanceDeck
  by_cases hge : d.playhead + (n : ℚ) * d.rate ≥ (d.frames : ℚ)
  · rw [if_pos hge]
    refine ⟨h.1, fun hf => ?_⟩
    dsimp only at hf ⊢
    have h1 : (1 : ℚ) ≤ (d.frames : ℚ) := by exact_mod_cast hf
    exact ⟨by linarith, by linarith, (h.2 hf).2.2⟩
  · rw [if_neg hge]
    refine ⟨h.1, fun hf => ?_⟩
    dsimp only at hf ⊢
    rcases h.2 hf with ⟨h0, hub, hc⟩
    have hnn : (0 : ℚ) ≤ (n : ℚ) * d.rate := mul_nonneg (by positivity) h.1
    exact ⟨by linarith, le_of_lt (lt_of_not_ge hge), hc⟩

theorem deckInv_renderDeck {f : List (ℚ × ℚ) → List (ℚ × ℚ)} {d : Deck} {n : ℕ}
    {r : List (ℚ × ℚ) × Deck} (h : DeckInv d) (hr : renderDeck f d n = some r) :
    DeckInv r.2 := by
  unfold renderDeck at hr
  cases hbuf : d.buffer with
  | none =>
    rw [hbuf] at hr
    injection hr with hr2
    rw [← hr2]
    exact h
  | some rows =>
    rw [hbuf] at hr
    dsimp only at hr
    by_cases hp : d.playing = true
    · rw [if_pos hp] at hr
      cases hcopy : renderCopy rows d.frames d.playhead n with
      | none => rw [hcopy] at hr; exact absurd hr (by simp)
      | some raw =>
        rw [hcopy, Option.map_some'] at hr
        injection hr with hr2
        rw [← hr2]
        exact deckInv_advance n h
    · rw [if_neg hp] at hr
      injection hr with hr2
      rw [← hr2]
      exact h

theorem engineInv_withDeck {e : Engine} {dk : DeckId} {d : Deck}
    (h : EngineInv e) (hd : DeckInv d) : EngineInv (e.withDeck dk d) := by
  cases dk
  · exact ⟨hd, h.2⟩
  · exact ⟨h.1, hd⟩

theorem deckInv_deckOf {e : Engine} (h : EngineInv e) (dk : DeckId) :
    DeckInv (e.deckOf dk) := by
  cases dk
  · exact h.1
  · exact h.2

theorem engineInv_applyOp {e : Engine} (op : Op) (hv : opValidB op = true)
    (h : EngineInv e) : EngineInv (applyOp e op) := by
  cases op with
  | load deck pcm sr =>
    show EngineInv (load_pcm e deck pcm sr).2
    unfold load_pcm
    by_cases h1 : sr ≠ e.sr
    · rw [if_pos h1]; exact h
    rw [if_neg h1]
    by_cases h2 : pcm.shape.length ≠ 2 ∨ pcm.shape.getD 1 0 ≠ 2
    · rw [if_pos h2]; exact h
    rw [if_neg h2]
    cases hrd : resolveDeck deck with
    | none => exact h
    | some dk =>
      dsimp only
      apply engineInv_withDeck h
      exact ⟨by norm_num, fun hf => ⟨le_refl 0, by positivity, by simp⟩⟩
  | play deck =>
    show EngineInv (play e deck).2
    unfold play
    cases hrd : resolveDeck deck with
    | none => exact h
    | some dk =>
      dsimp only
      exact engineInv_withDeck h (deckInv_deckOf h dk)
  | pause deck =>
    show EngineInv (pause e deck).2
    unfold pause
    cases hrd : resolveDeck deck with
    | none => exact h
    | some dk =>
      dsimp only
      exact engineInv_withDeck h (deckInv_deckOf h dk)
  | toggle deck =>
    show EngineInv (toggle_play e deck).2
    unfold toggle_play
    cases hrd : resolveDeck deck with
    | none => exact h
    | some dk =>
      dsimp only
      exact engineInv_withDeck h (deckInv_deckOf h dk)
  | seek deck i =>
    show EngineInv (seek_frames e deck i).2
    unfold seek_frames
    cases hrd : resolveDeck deck with
    | none => exact h
    | some dk =>
      dsimp only
      cases hbuf : (e.deckOf dk).buffer with
      | none => exact h
      | some rows =>
        dsimp only
        apply engineInv_withDeck h
        have hd := deckInv_deckOf h dk
        refine ⟨hd.1, fun hf => ?_⟩
        dsimp only at hf ⊢
        unfold npClip
        refine ⟨?_, ?_, (hd.2 hf).2.2⟩
        · have hz : (0 : ℤ) ≤ min (max i 0) ((e.deckOf dk).frames - 1) := by omega
          exact_mod_cast hz
        · have hz : min (max i 0) ((e.deckOf dk).frames - 1) ≤ (e.deckOf dk).frames := by
            omega
          exact_mod_cast hz
  | setRate deck r =>
    have hr0 : (0 : ℚ) ≤ r := of_decide_eq_true hv
    show EngineInv (set_rate e deck r).2
    unfold set_rate
    cases hrd : resolveDeck deck with
    | none => exact h
    | some dk =>
      dsimp only
      apply engineInv_withDeck h
      exact ⟨hr0, fun hf => (deckInv_deckOf h dk).2 hf⟩
  | setHotcue deck i =>
    show EngineInv (set_hotcue e deck i).2
    unfold set_hotcue
    cases hrd : resolveDeck deck with
    | none => exact h
    | some dk =>
      dsimp only
      apply engineInv_withDeck h
      have hd := deckInv_deckOf h dk
      refine ⟨hd.1, fun hf => ?_⟩
      dsimp only at hf ⊢
      rcases hd.2 hf with ⟨h0, hub, hc⟩
      refine ⟨h0, hub, ?_⟩
      exact mem_insertCue (fun z => 0 ≤ z ∧ z ≤ (e.deckOf dk).frames) hc
        (floor_bounds h0 hub)
  | gotoHotcue deck i =>
    show EngineInv (goto_hotcue e deck i).2
    unfold goto_hotcue
    cases hrd : resolveDeck deck with
    | none => exact h
    | some dk =>
      dsimp only
      cases hlk : lookupCue (e.deckOf dk).hotcues i with
      | none => exact h
      | some fr =>
        dsimp only
        apply engineInv_withDeck h
        have hd := deckInv_deckOf h dk
        refine ⟨hd.1, fun hf => ?_⟩
        dsimp only at hf ⊢
        rcases hd.2 hf with ⟨h0, hub, hc⟩
        rcases lookupCue_mem hlk with ⟨c, hcm, hcf⟩
        rcases hc c hcm with ⟨hc0, hcF⟩
        rw [hcf] at hc0 hcF
        exact ⟨by exact_mod_cast hc0, by exact_mod_cast hcF, hc⟩
  | render n =>
    show EngineInv (renderOp e n)
    unfold renderOp
    cases hra : renderDeck id e.deckA n with
    | none => exact h
    | some rA =>
      cases hrb : renderDeck id e.deckB n with
      | none => exact ⟨deckInv_renderDeck h.1 hra, h.2⟩
      | some rB => exact ⟨deckInv_renderDeck h.1 hra, deckInv_renderDeck h.2 hrb⟩

theorem engineInv_foldl (ops : List Op) :
    ∀ e, EngineInv e → ops.all opValidB = true → EngineInv (ops.foldl applyOp e) := by
  induction ops with
  | nil => intro e h _; exact h
  | cons op t ih =>
    intro e h hall
    rw [List.all_cons, Bool.and_eq_true] at hall
    exact ih _ (engineInv_applyOp op hall.1 h) hall.2

theorem deckInv_init : DeckInv deckInit := by
  constructor
  · norm_num [deckInit]
  · intro hf
    norm_num [deckInit] at hf

theorem engineInv_init : EngineInv engineInit := ⟨deckInv_init, deckInv_init⟩

theorem resolveDeck_none {deck : String} (h : resolveDeck deck = none) :
    pyUpper deck ≠ "A" ∧ pyUpper deck ≠ "B" := by
  unfold resolveDeck at h
  by_cases h1 : pyUpper deck = "A"
  · rw [if_pos h1] at h
    exact absurd h (by simp)
  rw [if_neg h1] at h
  by_cases h2 : pyUpper deck = "B"
  · rw [if_pos h2] at h
    exact absurd h (by simp)
  · exact ⟨h1, h2⟩

/-! Claim theorems. -/

/-- Claim C3, counterexample: the claim asserts 0 <= playheadFrames <=
frameCount for every sequence of control calls and render advances, including
arbitrary float rates stored by setRate.  Starting from the initial engine,
loading a two-frame buffer on deck A, storing rate -1.0 and playing, a single
render step of 4 frames leaves the loaded deck (frameCount 2 > 0) with
playheadFrames -4, which is negative: the advance 0 + 4 * (-1.0) is below the
frame count, so the code performs no clamping at all. -/
theorem C3_negative_rate_counterexample :
    0 < (renderOp c3Engine 4).deckA.frames ∧
    (renderOp c3Engine 4).deckA.playhead = -4 ∧
    ¬ (0 ≤ (renderOp c3Engine 4).deckA.playhead) := by
  have hE : c3Engine =
      ⟨48000, ⟨some [(0, 0), (0, 0)], 2, 0, -1, true, ⟨48000, 250, 2500, 0, 0, 0⟩, []⟩,
        deckInit, 1/2, 1, 1, true⟩ := rfl
  have hA : renderDeck id
      (⟨some [(0, 0), (0, 0)], 2, 0, -1, true, ⟨48000, 250, 2500, 0, 0, 0⟩, []⟩ : Deck) 4 =
      some ([(0, 0), (0, 0), (0, 0), (0, 0)],
        ⟨some [(0, 0), (0, 0)], 2, -4, -1, true, ⟨48000, 250, 2500, 0, 0, 0⟩, []⟩) := by
    norm_num [renderDeck, renderCopy, advanceDeck, pyInt, pySlice, sliceBound, zerosBlock]
    rfl
  have hB : renderDeck id deckInit 4 = some (zerosBlock 4, deckInit) := rfl
  simp only [renderOp, hE, hA, hB]
  norm_num

/-- Claim C3 (amended): for every sequence of control operations and render
steps starting from the freshly constructed engine in which every rate passed
to setRate is nonnegative, both decks satisfy 0 <= playheadFrames <=
frameCount whenever a nonempty buffer is loaded.  (The claim as frozen also
allows negative rates, which the code does not clamp; see the
counterexample.) -/
theorem C3_playhead_invariant (ops : List Op) (h : ops.all opValidB = true) :
    (0 < (ops.foldl applyOp engineInit).deckA.frames →
      0 ≤ (ops.foldl applyOp engineInit).deckA.playhead ∧
      (ops.foldl applyOp engineInit).deckA.playhead ≤
        ((ops.foldl applyOp engineInit).deckA.frames : ℚ))
    ∧ (0 < (ops.foldl applyOp engineInit).deckB.frames →
      0 ≤ (ops.foldl applyOp engineInit).deckB.playhead ∧
      (ops.foldl applyOp engineInit).deckB.playhead ≤
        ((ops.foldl applyOp engineInit).deckB.frames : ℚ)) := by
  have hI := engineInv_foldl ops engineInit engineInv_init h
  exact ⟨fun hf => ⟨(hI.1.2 hf).1, (hI.1.2 hf).2.1⟩,
    fun hf => ⟨(hI.2.2 hf).1, (hI.2.2 hf).2.1⟩⟩

/-- Witness for the amended claim C3 at a concrete valid operation list. -/
theorem C3_playhead_invariant_witness :
    c3Ops.all opValidB = true ∧
    (0 < (c3Ops.foldl applyOp engineInit).deckA.frames →
      0 ≤ (c3Ops.foldl applyOp engineInit).deckA.playhead ∧
      (c3Ops.foldl applyOp engineInit).deckA.playhead ≤
        ((c3Ops.foldl applyOp engineInit).deckA.frames : ℚ)) := by
  have hall : c3Ops.all opValidB = true := by
    simp only [c3Ops, List.all_cons, List.all_nil, opValidB, Bool.and_true, Bool.true_and]
    exact decide_eq_true (by norm_num)
  exact ⟨hall, (C3_playhead_invariant c3Ops hall).1⟩

/-- Claim C7, counterexample: the claim asserts that every control operation
taking a deck identifier raises an invalid-argument error on an unknown
identifier, and it lists setChannelGain.  But set_channel_gain has no else
branch: called with the unknown identifier C it raises nothing (no error
value) and silently leaves the engine unchanged. -/
theorem C7_counterexample_set_channel_gain :
    (set_channel_gain engineInit "C" (1/2)).1 = none ∧
    (set_channel_gain engineInit "C" (1/2)).2 = engineInit := ⟨rfl, rfl⟩

/-- Claim C7 (amended): with an identifier that resolves to neither deck,
loadPcm, play, pause, togglePlay, seekFrames, setRate, getPosition,
getDuration, setHotcue, gotoHotcue and setEq all raise an error and leave the
engine unchanged; setChannelGain is the exception: it raises nothing and
leaves the engine unchanged (a silent no-op). -/
theorem C7_invalid_deck (e : Engine) (deck : String) (h : resolveDeck deck = none)
    (pcm : NDArray) (sr i : ℤ) (r g lo mi hi : ℚ) :
    ((load_pcm e deck pcm sr).1.isSome = true ∧ (load_pcm e deck pcm sr).2 = e)
    ∧ ((play e deck).1.isSome = true ∧ (play e deck).2 = e)
    ∧ ((pause e deck).1.isSome = true ∧ (pause e deck).2 = e)
    ∧ ((toggle_play e deck).1.isSome = true ∧ (toggle_play e deck).2 = e)
    ∧ ((seek_frames e deck i).1.isSome = true ∧ (seek_frames e deck i).2 = e)
    ∧ ((set_rate e deck r).1.isSome = true ∧ (set_rate e deck r).2 = e)
    ∧ (get_position e deck = Except.error deckErr)
    ∧ (get_duration e deck = Except.error deckErr)
    ∧ ((set_hotcue e deck i).1.isSome = true ∧ (set_hotcue e deck i).2 = e)
    ∧ ((goto_hotcue e deck i).1.isSome = true ∧ (goto_hotcue e deck i).2 = e)
    ∧ ((set_eq e deck lo mi hi).1.isSome = true ∧ (set_eq e deck lo mi hi).2 = e)
    ∧ ((set_channel_gain e deck g).1 = none ∧ (set_channel_gain e deck g).2 = e) := by
  have hu := resolveDeck_none h
  refine ⟨?_, ?_, ?_, ?_, ?_, ?_, ?_, ?_, ?_, ?_, ?_, ?_⟩
  · unfold load_pcm
    by_cases h1 : sr ≠ e.sr
    · rw [if_pos h1]
      exact ⟨rfl, rfl⟩
    rw [if_neg h1]
    by_cases h2 : pcm.shape.length ≠ 2 ∨ pcm.shape.getD 1 0 ≠ 2
    · rw [if_pos h2]
      exact ⟨rfl, rfl⟩
    rw [if_neg h2, h]
    exact ⟨rfl, rfl⟩
  · unfold play
    rw [h]
    exact ⟨rfl, rfl⟩
  · unfold pause
    rw [h]
    exact ⟨rfl, rfl⟩
  · unfold toggle_play
    rw [h]
    exact ⟨rfl, rfl⟩
  · unfold seek_frames
    rw [h]
    exact ⟨rfl, rfl⟩
  · unfold set_rate
    rw [h]
    exact ⟨rfl, rfl⟩
  · unfold get_position
    rw [h]
  · unfold get_duration
    rw [h]
  · unfold set_hotcue
    rw [h]
    exact ⟨rfl, rfl⟩
  · unfold goto_hotcue
    rw [h]
    exact ⟨rfl, rfl⟩
  · unfold set_eq
    rw [h]
    exact ⟨rfl, rfl⟩
  · unfold set_channel_gain
    rw [if_neg hu.1, if_neg hu.2]
    exact ⟨rfl, rfl⟩

/-- Witness for the amended claim C7 at the concrete identifier C. -/
theorem C7_invalid_deck_witness :
    resolveDeck "C" = none ∧
    ((play engineInit "C").1.isSome = true ∧ (play engineInit "C").2 = engineInit) ∧
    ((set_channel_gain engineInit "C" 0).1 = none ∧
      (set_channel_gain engineInit "C" 0).2 = engineInit) := by
  have h : resolveDeck "C" = none := by decide
  have hx := C7_invalid_deck engineInit "C" h ⟨[0, 0], []⟩ 0 0 0 0 0 0 0
  exact ⟨h, hx.2.1, hx.2.2.2.2.2.2.2.2.2.2.2⟩

/-- Claim C10: deck identifiers are matched case-insensitively.  For every
control operation taking a deck identifier, the lowercase identifiers a and b
give exactly the same result (error and state) as A and B: the identifier is
uppercased before the comparison in _deck and in set_channel_gain. -/
theorem C10_case_insensitive_decks (e : Engine) (pcm : NDArray) (sr i : ℤ)
    (r g lo mi hi : ℚ) :
    (load_pcm e "a" pcm sr = load_pcm e "A" pcm sr
      ∧ load_pcm e "b" pcm sr = load_pcm e "B" pcm sr)
    ∧ (play e "a" = play e "A" ∧ play e "b" = play e "B")
    ∧ (pause e "a" = pause e "A" ∧ pause e "b" = pause e "B")
    ∧ (toggle_play e "a" = toggle_play e "A" ∧ toggle_play e "b" = toggle_play e "B")
    ∧ (seek_frames e "a" i = seek_frames e "A" i
      ∧ seek_frames e "b" i = seek_frames e "B" i)
    ∧ (set_rate e "a" r = set_rate e "A" r ∧ set_rate e "b" r = set_rate e "B" r)
    ∧ (get_position e "a" = get_position e "A" ∧ get_position e "b" = get_position e "B")
    ∧ (get_duration e "a" = get_duration e "A" ∧ get_duration e "b" = get_duration e "B")
    ∧ (set_hotcue e "a" i = set_hotcue e "A" i ∧ set_hotcue e "b" i = set_hotcue e "B" i)
    ∧ (goto_hotcue e "a" i = goto_hotcue e "A" i
      ∧ goto_hotcue e "b" i = goto_hotcue e "B" i)
    ∧ (set_eq e "a" lo mi hi = set_eq e "A" lo mi hi
      ∧ set_eq e "b" lo mi hi = set_eq e "B" lo mi hi)
    ∧ (set_channel_gain e "a" g = set_channel_gain e "A" g
      ∧ set_channel_gain e "b" g = set_channel_gain e "B" g) := by
  have ha : resolveDeck "a" = some DeckId.A := by decide
  have hA : resolveDeck "A" = some DeckId.A := by decide
  have hb : resolveDeck "b" = some DeckId.B := by decide
  have hB : resolveDeck "B" = some DeckId.B := by decide
  have ua : pyUpper "a" = "A" := by decide
  have uA : pyUpper "A" = "A" := by decide
  have ub : pyUpper "b" = "B" := by decide
  have uB : pyUpper "B" = "B" := by decide
  refine ⟨⟨?_, ?_⟩, ⟨?_, ?_⟩, ⟨?_, ?_⟩, ⟨?_, ?_⟩, ⟨?_, ?_⟩, ⟨?_, ?_⟩, ⟨?_, ?_⟩,
    ⟨?_, ?_⟩, ⟨?_, ?_⟩, ⟨?_, ?_⟩, ⟨?_, ?_⟩, ⟨?_, ?_⟩⟩
  · simp only [load_pcm, ha, hA]
  · simp only [load_pcm, hb, hB]
  · simp only [play, ha, hA]
  · simp only [play, hb, hB]
  · simp only [pause, ha, hA]
  · simp only [pause, hb, hB]
  · simp only [toggle_play, ha, hA]
  · simp only [toggle_play, hb, hB]
  · simp only [seek_frames, ha, hA]
  · simp only [seek_frames, hb, hB]
  · simp only [set_rate, ha, hA]
  · simp only [set_rate, hb, hB]
  · simp only [get_position, ha, hA]
  · simp only [get_position, hb, hB]
  · simp only [get_duration, ha, hA]
  · simp only [get_duration, hb, hB]
  · simp only [set_hotcue, ha, hA]
  · simp only [set_hotcue, hb, hB]
  · simp only [goto_hotcue, ha, hA]
  · simp only [goto_hotcue, hb, hB]
  · simp only [set_eq, ha, hA]
  · simp only [set_eq, hb, hB]
  · simp only [set_channel_gain, ua, uA]
  · simp only [set_channel_gain, ub, uB]

/-- Claim C9: a (0, 2) array passes load validation (it is two-dimensional
with second dimension 2), giving a loaded deck with zero frames; a subsequent
seekFrames stores float(np.clip(i, 0, frames - 1)) = np.clip(i, 0, -1), and
because the clip upper bound is applied last the result is -1 for every
integer i: the playhead becomes -1.0. -/
theorem C9_zero_frame_seek (e : Engine) (deck : String) (dk : DeckId)
    (h : resolveDeck deck = some dk) (i : ℤ) :
    (load_pcm e deck ⟨[0, 2], []⟩ e.sr).1 = none ∧
    (seek_frames (load_pcm e deck ⟨[0, 2], []⟩ e.sr).2 deck i).1 = none ∧
    ((seek_frames (load_pcm e deck ⟨[0, 2], []⟩ e.sr).2 deck i).2.deckOf dk).playhead = -1 := by
  have hclip : npClip i 0 (0 - 1) = -1 := by
    unfold npClip
    omega
  have hload : load_pcm e deck ⟨[0, 2], []⟩ e.sr =
      (none, e.withDeck dk
        { e.deckOf dk with
          buffer := some ([] : List (ℚ × ℚ))
          frames := 0
          playhead := 0
          playing := false
          rate := 1
          hotcues := []
          eq := { (e.deckOf dk).eq with sr := e.sr } }) := by
    unfold load_pcm
    rw [if_neg (by simp), if_neg (by simp), h]
    rfl
  rw [hload]
  dsimp only
  refine ⟨rfl, ?_⟩
  unfold seek_frames
  rw [h]
  dsimp only
  rw [deckOf_withDeck_same]
  dsimp only
  refine ⟨rfl, ?_⟩
  rw [deckOf_withDeck_same]
  dsimp only
  rw [hclip]
  norm_num

/-- Witness for claim C9 at deck B of the fresh engine and seek index 7. -/
theorem C9_zero_frame_seek_witness :
    resolveDeck "B" = some DeckId.B ∧
    ((seek_frames (load_pcm engineInit "B" ⟨[0, 2], []⟩ engineInit.sr).2 "B" 7).2.deckOf
        DeckId.B).playhead = -1 := by
  have h : resolveDeck "B" = some DeckId.B := by decide
  exact ⟨h, (C9_zero_frame_seek engineInit "B" DeckId.B h 7).2.2⟩

/-- Claim C1 (code bug evidence): the real-time callback contains no
exception handler, so a render fault escapes it instead of degrading to
silence.  Concretely, from the fresh engine: load a two-frame buffer on deck
A, set rate -1.0, play.  The first 4-frame callback succeeds and leaves the
deck playing with playhead -4 (no clamp for a negative advance); in the
second callback the copy step evaluates buffer[-4:0], an empty slice, and the
numpy assignment of a (0, 2) array into a (4, 2) region raises a broadcast
ValueError, modelled as none: the whole callback evaluates to none, the
exception propagating out. -/
theorem C1_callback_fault_propagates :
    (callbackStep 1 0 id id c1Engine 4).isSome = true ∧
    ((callbackStep 1 0 id id c1Engine 4).map
      (fun r => (r.2.deckA.playhead, r.2.deckA.playing)) = some (-4, true)) ∧
    ((callbackStep 1 0 id id c1Engine 4).bind
      (fun r => callbackStep 1 0 id id r.2 4)) = none := by
  have hE : c1Engine =
      ⟨48000, ⟨some [(0, 0), (0, 0)], 2, 0, -1, true, ⟨48000, 250, 2500, 0, 0, 0⟩, []⟩,
        deckInit, 1/2, 1, 1, true⟩ := rfl
  have hA1 : renderDeck id
      (⟨some [(0, 0), (0, 0)], 2, 0, -1, true, ⟨48000, 250, 2500, 0, 0, 0⟩, []⟩ : Deck) 4 =
      some ([(0, 0), (0, 0), (0, 0), (0, 0)],
        ⟨some [(0, 0), (0, 0)], 2, -4, -1, true, ⟨48000, 250, 2500, 0, 0, 0⟩, []⟩) := by
    norm_num [renderDeck, renderCopy, advanceDeck, pyInt, pySlice, sliceBound, zerosBlock]
    rfl
  have hA2 : renderDeck id
      (⟨some [(0, 0), (0, 0)], 2, -4, -1, true, ⟨48000, 250, 2500, 0, 0, 0⟩, []⟩ : Deck) 4 =
      none := by
    norm_num [renderDeck, renderCopy, advanceDeck, pyInt, pySlice, sliceBound, zerosBlock,
      Int.toNat]
  have hB : renderDeck id deckInit 4 = some (zerosBlock 4, deckInit) := rfl
  refine ⟨?_, ?_, ?_⟩
  · simp only [callbackStep, hE, hA1, hB, Option.isSome_some]
  · simp only [callbackStep, hE, hA1, hB, Option.map_some']
  · simp only [callbackStep, hE, hA1, hA2, hB, Option.some_bind]

/-- Claim C2: one render step of a playing deck with a loaded buffer copies
min(blockSize, frameCount - int(playhead)) frames from the integer playhead
into the output block and leaves the remaining frames silent; the deck then
advances the playhead by blockSize * rate, clamping to frameCount - 1 and
stopping when the advanced playhead reaches or exceeds the frame count, and
keeps playing at the advanced position otherwise. -/
theorem C2_render_step (eqApply : List (ℚ × ℚ) → List (ℚ × ℚ)) (d : Deck)
    (n : ℕ) (rows : List (ℚ × ℚ))
    (hbuf : d.buffer = some rows) (hplay : d.playing = true)
    (h0 : 0 ≤ d.playhead) (hub : d.playhead ≤ (d.frames : ℚ))
    (hlen : d.frames = rows.length) :
    renderCopy rows d.frames d.playhead n =
      some ((rows.drop (pyInt d.playhead).toNat).take
          ((min (n : ℤ) (d.frames - pyInt d.playhead)).toNat)
        ++ zerosBlock (n - (min (n : ℤ) (d.frames - pyInt d.playhead)).toNat))
    ∧ renderDeck eqApply d n =
      (renderCopy rows d.frames d.playhead n).map
        (fun raw => (eqApply raw, advanceDeck d n))
    ∧ ((d.frames : ℚ) ≤ d.playhead + (n : ℚ) * d.rate →
        (advanceDeck d n).playhead = (d.frames : ℚ) - 1 ∧
          (advanceDeck d n).playing = false)
    ∧ (d.playhead + (n : ℚ) * d.rate < (d.frames : ℚ) →
        (advanceDeck d n).playhead = d.playhead + (n : ℚ) * d.rate ∧
          (advanceDeck d n).playing = true) := by
  have hs : pyInt d.playhead = ⌊d.playhead⌋ := pyInt_of_nonneg h0
  have hs0 : 0 ≤ pyInt d.playhead := by
    rw [hs]
    exact Int.le_floor.2 (by exact_mod_cast h0)
  have hsF : pyInt d.playhead ≤ d.frames := by
    rw [hs]
    have hx := Int.floor_le_floor hub
    rwa [Int.floor_intCast] at hx
  refine ⟨?_, ?_, ?_, ?_⟩
  · unfold renderCopy
    by_cases hgt : min (pyInt d.playhead + (n : ℤ)) d.frames > pyInt d.playhead
    · rw [if_pos hgt]
      have hSlen : pyInt d.playhead ≤ (rows.length : ℤ) := by omega
      have hstop0 : 0 ≤ min (pyInt d.playhead + (n : ℤ)) d.frames := by omega
      have hstopLen : min (pyInt d.playhead + (n : ℤ)) d.frames ≤ (rows.length : ℤ) := by
        omega
      rw [pySlice_of_bounds rows hs0 hSlen hstop0 hstopLen]
      have hcond : ((rows.drop (pyInt d.playhead).toNat).take
          ((min (pyInt d.playhead + (n : ℤ)) d.frames).toNat - (pyInt d.playhead).toNat)).length
          = (min (min (pyInt d.playhead + (n : ℤ)) d.frames - pyInt d.playhead) (n : ℤ)).toNat := by
        rw [List.length_take, List.length_drop]
        omega
      rw [if_pos hcond]
      rw [show (min (min (pyInt d.playhead + (n : ℤ)) d.frames - pyInt d.playhead) (n : ℤ)).toNat
          = (min (n : ℤ) (d.frames - pyInt d.playhead)).toNat from by omega]
      rw [show (min (pyInt d.playhead + (n : ℤ)) d.frames).toNat - (pyInt d.playhead).toNat
          = (min (n : ℤ) (d.frames - pyInt d.playhead)).toNat from by omega]
    · rw [if_neg hgt]
      rw [show (min (n : ℤ) (d.frames - pyInt d.playhead)).toNat = 0 from by omega]
      simp [zerosBlock]
  · unfold renderDeck
    rw [hbuf]
    dsimp only
    rw [if_pos hplay]
  · intro hge
    unfold advanceDeck
    rw [if_pos hge]
    exact ⟨rfl, rfl⟩
  · intro hlt
    unfold advanceDeck
    rw [if_neg (not_le.2 hlt)]
    exact ⟨rfl, hplay⟩

/-- Witness for claim C2: the end-of-track example.  A 100-frame buffer at
playhead 0 and rate 1.0 rendered with block size 256 copies all 100 frames,
pads the remaining 156 output frames with silence, leaves the playhead at 99
and stops the deck. -/
theorem C2_render_step_witness :
    (c2Deck.buffer = some c2Rows ∧ c2Deck.playing = true ∧ 0 ≤ c2Deck.playhead ∧
      c2Deck.playhead ≤ (c2Deck.frames : ℚ) ∧ c2Deck.frames = c2Rows.length) ∧
    renderCopy c2Rows c2Deck.frames c2Deck.playhead 256 = some (c2Rows ++ zerosBlock 156) ∧
    (advanceDeck c2Deck 256).playhead = 99 ∧
    (advanceDeck c2Deck 256).playing = false := by
  have h1 : c2Deck.buffer = some c2Rows := rfl
  have h2 : c2Deck.playing = true := rfl
  have h3 : (0 : ℚ) ≤ c2Deck.playhead := le_refl 0
  have h4 : c2Deck.playhead ≤ (c2Deck.frames : ℚ) := by norm_num [c2Deck]
  have h5 : c2Deck.frames = c2Rows.length := by norm_num [c2Deck, c2Rows]
  have h := C2_render_step id c2Deck 256 c2Rows h1 h2 h3 h4 h5
  have hge : (c2Deck.frames : ℚ) ≤ c2Deck.playhead + (256 : ℕ) * c2Deck.rate := by
    norm_num [c2Deck]
  refine ⟨⟨h1, h2, h3, h4, h5⟩, ?_, ?_, ?_⟩
  · show renderCopy c2Rows 100 0 256 = some (c2Rows ++ zerosBlock 156)
    have hc := h.1
    rw [show pyInt c2Deck.playhead = 0 from by norm_num [c2Deck, pyInt]] at hc
    norm_num [c2Deck] at hc
    rw [hc]
    simp [c2Rows, List.take_replicate]
  · have hp := (h.2.2.1 hge).1
    rw [hp]
    norm_num [c2Deck]
  · exact (h.2.2.1 hge).2

/-- Seeking, on any deck string and index, never touches any deck hot-cue
table: seek_frames only rewrites the playhead field. -/
theorem seek_frames_hotcues (acc : Engine) (ds : String) (i : ℤ) (dk : DeckId) :
    ((seek_frames acc ds i).2.deckOf dk).hotcues = (acc.deckOf dk).hotcues := by
  unfold seek_frames
  cases hrd : resolveDeck ds with
  | none => rfl
  | some dk2 =>
    dsimp only
    cases hbuf : (acc.deckOf dk2).buffer with
    | none => rfl
    | some rows =>
      dsimp only
      cases dk2 <;> cases dk <;> rfl

/-- Folding any list of seeks leaves every hot-cue table unchanged. -/
theorem seeks_foldl_hotcues (seeks : List (String × ℤ)) :
    ∀ (acc : Engine) (dk : DeckId),
      (((seeks.foldl (fun a s => (seek_frames a s.1 s.2).2) acc)).deckOf dk).hotcues =
        (acc.deckOf dk).hotcues := by
  induction seeks with
  | nil => intro acc dk; rfl
  | cons s t ih =>
    intro acc dk
    rw [List.foldl_cons, ih, seek_frames_hotcues]

/-- Claim C8: the hot-cue round trip.  With a loaded deck parked at integer
playhead p, set_hotcue stores p at index i; any sequence of seeks (on either
deck, to any indices) leaves the hot-cue tables untouched; goto_hotcue at
index i then restores the playhead to exactly p.  And goto_hotcue with an
index that was never stored is a silent no-op on the whole engine. -/
theorem C8_hotcue_roundtrip :
    (∀ (e : Engine) (deck : String) (dk : DeckId) (p i : ℤ)
      (seeks : List (String × ℤ)) (rows : List (ℚ × ℚ)),
      resolveDeck deck = some dk → (e.deckOf dk).buffer = some rows →
      (e.deckOf dk).playhead = (p : ℚ) →
      ((goto_hotcue
          (seeks.foldl (fun a s => (seek_frames a s.1 s.2).2) (set_hotcue e deck i).2)
          deck i).2.deckOf dk).playhead = (p : ℚ))
    ∧ (∀ (e : Engine) (deck : String) (dk : DeckId) (i : ℤ),
      resolveDeck deck = some dk → lookupCue (e.deckOf dk).hotcues i = none →
      (goto_hotcue e deck i).2 = e) := by
  constructor
  · intro e deck dk p i seeks rows hrd hbuf hph
    have hset : ((set_hotcue e deck i).2.deckOf dk).hotcues =
        insertCue (e.deckOf dk).hotcues i p := by
      unfold set_hotcue
      rw [hrd]
      dsimp only
      rw [deckOf_withDeck_same]
      dsimp only
      rw [hph, pyInt_intCast]
    have hcues : (((seeks.foldl (fun a s => (seek_frames a s.1 s.2).2)
        (set_hotcue e deck i).2)).deckOf dk).hotcues =
        insertCue (e.deckOf dk).hotcues i p := by
      rw [seeks_foldl_hotcues, hset]
    unfold goto_hotcue
    rw [hrd]
    dsimp only
    rw [hcues, lookupCue_insertCue]
    dsimp only
    rw [deckOf_withDeck_same]
  · intro e deck dk i hrd hnone
    unfold goto_hotcue
    rw [hrd]
    dsimp only
    rw [hnone]

/-- Witness for claim C8: deck A parked at playhead 4000, hot cue 1 stored,
one seek to frame 100, goto restores 4000 exactly. -/
theorem C8_hotcue_roundtrip_witness :
    resolveDeck "A" = some DeckId.A ∧
    (c8Engine.deckOf DeckId.A).buffer = some ([] : List (ℚ × ℚ)) ∧
    (c8Engine.deckOf DeckId.A).playhead = ((4000 : ℤ) : ℚ) ∧
    ((goto_hotcue
        ([(("A" : String), (100 : ℤ))].foldl (fun a s => (seek_frames a s.1 s.2).2)
          (set_hotcue c8Engine "A" 1).2)
        "A" 1).2.deckOf DeckId.A).playhead = ((4000 : ℤ) : ℚ) := by
  have h1 : resolveDeck "A" = some DeckId.A := by decide
  have h2 : (c8Engine.deckOf DeckId.A).buffer = some ([] : List (ℚ × ℚ)) := rfl
  have h3 : (c8Engine.deckOf DeckId.A).playhead = ((4000 : ℤ) : ℚ) := by
    norm_num [c8Engine, Engine.deckOf]
  exact ⟨h1, h2, h3,
    C8_hotcue_roundtrip.1 c8Engine "A" DeckId.A 4000 1 [("A", 100)] [] h1 h2 h3⟩

/-- Claim C6: with a valid deck identifier, load_pcm errors exactly when the
source sample rate differs from the engine rate or the array shape is not
(N, 2); a failed load leaves the whole engine unchanged; a successful load
replaces the buffer, sets the frame count from the shape, resets the playhead
to 0, stops playback, resets the rate to 1, clears the hot cues and
re-synchronizes the isolator sample rate. -/
theorem C6_load_validation (e : Engine) (deck : String) (dk : DeckId)
    (h : resolveDeck deck = some dk) (pcm : NDArray) (sr : ℤ) :
    ((load_pcm e deck pcm sr).1.isSome = true ↔
      (sr ≠ e.sr ∨ ¬(pcm.shape.length = 2 ∧ pcm.shape.getD 1 0 = 2)))
    ∧ ((load_pcm e deck pcm sr).1.isSome = true → (load_pcm e deck pcm sr).2 = e)
    ∧ ((load_pcm e deck pcm sr).1 = none →
        (load_pcm e deck pcm sr).2 = e.withDeck dk
          { e.deckOf dk with
              buffer := some pcm.rows
              frames := (pcm.shape.getD 0 0 : ℤ)
              playhead := 0
              playing := false
              rate := 1
              hotcues := []
              eq := { (e.deckOf dk).eq with sr := e.sr } }) := by
  unfold load_pcm
  by_cases h1 : sr ≠ e.sr
  · rw [if_pos h1]
    refine ⟨?_, fun _ => rfl, fun hx => absurd hx (by simp)⟩
    simp [h1]
  rw [if_neg h1]
  by_cases h2 : pcm.shape.length ≠ 2 ∨ pcm.shape.getD 1 0 ≠ 2
  · rw [if_pos h2]
    refine ⟨?_, fun _ => rfl, fun hx => absurd hx (by simp)⟩
    constructor
    · intro _
      right
      intro hand
      rcases h2 with h2 | h2
      · exact h2 hand.1
      · exact h2 hand.2
    · intro _
      rfl
  · rw [if_neg h2, h]
    push_neg at h2
    refine ⟨?_, ?_, ?_⟩
    · constructor
      · intro hx
        exact absurd hx (by simp)
      · intro hx
        rcases hx with hx | hx
        · exact absurd hx h1
        · exact absurd ⟨h2.1, h2.2⟩ hx
    · intro hx
      exact absurd hx (by simp)
    · intro _
      rfl

/-- Witness for claim C6: loading at 44100 Hz into a 48000 Hz engine raises
and leaves the engine unchanged. -/
theorem C6_load_validation_witness :
    resolveDeck "A" = some DeckId.A ∧
    (load_pcm engineInit "A" ⟨[3, 2], List.replicate 3 (0, 0)⟩ 44100).1.isSome = true ∧
    (load_pcm engineInit "A" ⟨[3, 2], List.replicate 3 (0, 0)⟩ 44100).2 = engineInit := by
  have h : resolveDeck "A" = some DeckId.A := by decide
  have hx := C6_load_validation engineInit "A" DeckId.A h
    ⟨[3, 2], List.replicate 3 (0, 0)⟩ 44100
  have hs : (44100 : ℤ) ≠ engineInit.sr := by decide
  have hi : (load_pcm engineInit "A" ⟨[3, 2], List.replicate 3 (0, 0)⟩ 44100).1.isSome
      = true := hx.1.mpr (Or.inl hs)
  exact ⟨h, hi, hx.2.1 hi⟩

/-- Claim C4: the crossfade weights are cos and sin of p times pi over two,
so their squares sum to 1 at every position; at position 0 the output block is
the clipped deck A block alone, at 1 the clipped deck B block alone; at 0.5
both weights equal cos(pi / 4); and every sample the callback delivers is
hard-clipped into the interval from -1 to 1. -/
theorem C4_equal_power_crossfade :
    (∀ p : ℝ, mixGainA p ^ 2 + mixGainB p ^ 2 = 1)
    ∧ (mixGainA 0 = 1 ∧ mixGainB 0 = 0)
    ∧ (mixGainA 1 = 0 ∧ mixGainB 1 = 1)
    ∧ (mixGainA (1/2) = Real.cos (Real.pi / 4) ∧ mixGainB (1/2) = Real.cos (Real.pi / 4))
    ∧ (∀ a b : List (ℝ × ℝ), mixBlock 0 a b =
        List.zipWith (fun u _ => (clipR u.1, clipR u.2)) a b)
    ∧ (∀ a b : List (ℝ × ℝ), mixBlock 1 a b =
        List.zipWith (fun _ v => (clipR v.1, clipR v.2)) a b)
    ∧ (∀ (p : ℝ) (a b : List (ℝ × ℝ)), ∀ q ∈ mixBlock p a b,
        -1 ≤ q.1 ∧ q.1 ≤ 1 ∧ -1 ≤ q.2 ∧ q.2 ≤ 1) := by
  have hA0 : mixGainA 0 = 1 := by simp [mixGainA, mixTheta]
  have hB0 : mixGainB 0 = 0 := by simp [mixGainB, mixTheta]
  have hA1 : mixGainA 1 = 0 := by simp [mixGainA, mixTheta, Real.cos_pi_div_two]
  have hB1 : mixGainB 1 = 1 := by simp [mixGainB, mixTheta, Real.sin_pi_div_two]
  have hclip_lb : ∀ x : ℝ, -1 ≤ clipR x := fun x =>
    le_min (le_max_right x (-1)) (by norm_num)
  have hclip_ub : ∀ x : ℝ, clipR x ≤ 1 := fun x => min_le_right _ _
  refine ⟨?_, ⟨hA0, hB0⟩, ⟨hA1, hB1⟩, ⟨?_, ?_⟩, ?_, ?_, ?_⟩
  · intro p
    simp only [mixGainA, mixGainB]
    exact Real.cos_sq_add_sin_sq (mixTheta p)
  · unfold mixGainA mixTheta
    rw [show (1/2 : ℝ) * (Real.pi / 2) = Real.pi / 4 by ring]
  · unfold mixGainB mixTheta
    rw [show (1/2 : ℝ) * (Real.pi / 2) = Real.pi / 4 by ring,
      Real.sin_pi_div_four, Real.cos_pi_div_four]
  · intro a b
    unfold mixBlock
    simp only [hA0, hB0, one_mul, zero_mul, add_zero]
  · intro a b
    unfold mixBlock
    simp only [hA1, hB1, one_mul, zero_mul, zero_add]
  · intro p a b q hq
    unfold mixBlock at hq
    rcases exists_of_mem_zipWith hq with ⟨u, v, rfl⟩
    exact ⟨hclip_lb _, hclip_ub _, hclip_lb _, hclip_ub _⟩

/-- Witness for claim C4: a concrete mixed block at position 0, with the
clip bounds at its single frame. -/
theorem C4_equal_power_crossfade_witness :
    ((clipR 2, clipR (-3)) ∈ mixBlock 0 [((2 : ℝ), -3)] [((5 : ℝ), 7)]) ∧
    (-1 ≤ clipR (2 : ℝ) ∧ clipR (2 : ℝ) ≤ 1 ∧ -1 ≤ clipR (-3 : ℝ) ∧ clipR (-3 : ℝ) ≤ 1) := by
  have h := C4_equal_power_crossfade
  have hm : mixBlock 0 [((2 : ℝ), -3)] [((5 : ℝ), 7)] = [(clipR 2, clipR (-3))] := by
    rw [h.2.2.2.2.1]
    rfl
  have hmem : (clipR (2 : ℝ), clipR (-3 : ℝ)) ∈ mixBlock 0 [((2 : ℝ), -3)] [((5 : ℝ), 7)] := by
    rw [hm]
    exact List.mem_singleton.2 rfl
  exact ⟨hmem, h.2.2.2.2.2.2 0 _ _ _ hmem⟩

/-- Claim C5: a band gain at or below -80 dB, or non-finite, maps to linear
gain exactly 0.0, and any other gain g maps to 10 raised to g / 20; a killed
band contributes an exactly-zero signal to the isolator output, which then
equals the combination of the other two bands alone (stated for each of the
three bands). -/
theorem C5_band_kill :
    (∀ v : FVal, (v.leConst (-80) = true ∨ v.isFinite = false) → db_to_lin v = 0)
    ∧ (∀ q : ℚ, ¬(q ≤ -80) → db_to_lin (FVal.finite q) = (10 : ℝ) ^ ((q : ℝ) / 20))
    ∧ (∀ (eq : EQIsolator ℝ) (x : List (ℝ × ℝ)),
        (eq.low_gain_db.leConst (-80) = true ∨ eq.low_gain_db.isFinite = false) →
        (eqLowBand eq x).map (scalePair (db_to_lin eq.low_gain_db)) =
          List.replicate (eqLowBand eq x).length ((0 : ℝ), (0 : ℝ)) ∧
        (eqProcess db_to_lin eq x).1 =
          eqCombine 0 (db_to_lin eq.mid_gain_db) (db_to_lin eq.high_gain_db)
            (eqLowBand eq x) (eqMidBand eq x) (eqHighBand eq x))
    ∧ (∀ (eq : EQIsolator ℝ) (x : List (ℝ × ℝ)),
        (eq.mid_gain_db.leConst (-80) = true ∨ eq.mid_gain_db.isFinite = false) →
        (eqMidBand eq x).map (scalePair (db_to_lin eq.mid_gain_db)) =
          List.replicate (eqMidBand eq x).length ((0 : ℝ), (0 : ℝ)) ∧
        (eqProcess db_to_lin eq x).1 =
          eqCombine (db_to_lin eq.low_gain_db) 0 (db_to_lin eq.high_gain_db)
            (eqLowBand eq x) (eqMidBand eq x) (eqHighBand eq x))
    ∧ (∀ (eq : EQIsolator ℝ) (x : List (ℝ × ℝ)),
        (eq.high_gain_db.leConst (-80) = true ∨ eq.high_gain_db.isFinite = false) →
        (eqHighBand eq x).map (scalePair (db_to_lin eq.high_gain_db)) =
          List.replicate (eqHighBand eq x).length ((0 : ℝ), (0 : ℝ)) ∧
        (eqProcess db_to_lin eq x).1 =
          eqCombine (db_to_lin eq.low_gain_db) (db_to_lin eq.mid_gain_db) 0
            (eqLowBand eq x) (eqMidBand eq x) (eqHighBand eq x)) := by
  have hempty : ∀ (eq : EQIsolator ℝ) (gl gm gh : ℝ),
      (eqProcess db_to_lin eq ([] : List (ℝ × ℝ))).1 =
        eqCombine gl gm gh (eqLowBand eq []) (eqMidBand eq []) (eqHighBand eq []) := by
    intro eq gl gm gh
    simp [eqProcess, eqCombine, eqBands, eqLowBand, eqMidBand, eqHighBand,
      lr4Process, biquadProcess]
  have hout : ∀ (eq : EQIsolator ℝ) (hd : ℝ × ℝ) (tl : List (ℝ × ℝ)),
      (eqProcess db_to_lin eq (hd :: tl)).1 =
        eqCombine (db_to_lin eq.low_gain_db) (db_to_lin eq.mid_gain_db)
          (db_to_lin eq.high_gain_db)
          (eqLowBand eq (hd :: tl)) (eqMidBand eq (hd :: tl)) (eqHighBand eq (hd :: tl)) := by
    intro eq hd tl
    unfold eqProcess
    rw [if_neg (by simp)]
    rfl
  refine ⟨db_to_lin_kill, ?_, ?_, ?_, ?_⟩
  · intro q hq
    have hcond : (FVal.leConst (FVal.finite q) (-80) || !(FVal.isFinite (FVal.finite q)))
        = false := by
      simp [FVal.leConst, FVal.isFinite, hq]
    unfold db_to_lin
    rw [hcond]
    simp
  · intro eq x hkill
    have hz : db_to_lin eq.low_gain_db = 0 := db_to_lin_kill _ hkill
    refine ⟨by rw [hz, map_scalePair_zero], ?_⟩
    cases x with
    | nil => rw [hempty eq 0]
    | cons hd tl => rw [hout eq hd tl, hz]
  · intro eq x hkill
    have hz : db_to_lin eq.mid_gain_db = 0 := db_to_lin_kill _ hkill
    refine ⟨by rw [hz, map_scalePair_zero], ?_⟩
    cases x with
    | nil => rw [hempty eq (db_to_lin eq.low_gain_db) 0]
    | cons hd tl => rw [hout eq hd tl, hz]
  · intro eq x hkill
    have hz : db_to_lin eq.high_gain_db = 0 := db_to_lin_kill _ hkill
    refine ⟨by rw [hz, map_scalePair_zero], ?_⟩
    cases x with
    | nil => rw [hempty eq (db_to_lin eq.low_gain_db) (db_to_lin eq.mid_gain_db)]
    | cons hd tl => rw [hout eq hd tl, hz]

/-- Witness for claim C5: a negative-infinity low gain is a kill, its linear
gain is exactly zero, and on a concrete one-frame block the scaled low band
contribution is the all-zero signal. -/
theorem C5_band_kill_witness :
    (FVal.ninf.leConst (-80) = true ∨ FVal.ninf.isFinite = false) ∧
    db_to_lin FVal.ninf = 0 ∧
    ((eqLowBand c5Iso [((1 : ℝ), 2)]).map (scalePair (db_to_lin c5Iso.low_gain_db)) =
      List.replicate (eqLowBand c5Iso [((1 : ℝ), 2)]).length ((0 : ℝ), (0 : ℝ))) := by
  have hk : FVal.ninf.leConst (-80) = true ∨ FVal.ninf.isFinite = false :=
    Or.inl (by decide)
  have h := C5_band_kill
  exact ⟨hk, h.1 FVal.ninf hk, (h.2.2.1 c5Iso [((1 : ℝ), 2)] hk).1⟩

end DJSpec
